import Mathlib

/-!
Verification of the Strava → Google Sheets sync engine
(`strava_sheets_sync.py`) against its natural-language specification.

The Python source is shallowly embedded below:
* pure helper functions become Lean functions on `Nat` / `Int` / `ℚ` /
  `String`;
* Python `float` arithmetic is modelled with exact rationals (`ℚ`);
* the network is modelled by oracles (a page function for pagination, a
  token-response record for the OAuth refresh);
* the spreadsheet is modelled by the list of strings of its date column
  (what `worksheet.col_values(date_col)` returns) plus a log of batched
  cell writes (what `worksheet.update_cells` receives), which can be
  replayed onto a cell-state function.

Python's `datetime.strptime` behaviour for the six fixed format strings
used by `normalize_date` is embedded directly: each directive matches
exactly what CPython's `_strptime` regular expressions match (`%Y` four
digits, `%m`/`%d` one or two digits in range, `%y` exactly two digits
with the 69-pivot, `%B`/`%b` case-insensitive month names, literal
whitespace matching one or more whitespace characters), followed by the
calendar validity check performed by the `datetime` constructor.
`strftime("%Y-%m-%d")` is modelled as documented (year zero-padded to
four digits, month and day to two).
-/

/-! ## Characters, digit strings and Python-style number formatting -/

/-- Numeric value of a decimal digit character. -/
def digitVal (c : Char) : Nat := c.toNat - 48

/-- Value of a list of decimal digit characters, most significant first. -/
def charsVal (cs : List Char) : Nat := cs.foldl (fun a c => 10 * a + digitVal c) 0

/-- `n` printed in decimal, zero-padded to exactly `k` digits
(the low-order `k` digits when `n` has more). -/
def padNum : Nat → Nat → List Char
  | 0, _ => []
  | k + 1, n => padNum k (n / 10) ++ [Nat.digitChar (n % 10)]

/-- Decimal digits of `n` (no padding); fuel-indexed so that it is
structurally recursive. -/
def natReprAux : Nat → Nat → List Char
  | 0, _ => []
  | fuel + 1, n => if n < 10 then [Nat.digitChar n] else natReprAux fuel (n / 10) ++ [Nat.digitChar (n % 10)]

/-- Decimal representation of a natural number. -/
def natRepr (n : Nat) : String := ⟨natReprAux (n + 1) n⟩

/-- Python `str` of an `int`. -/
def numStr (n : Int) : String :=
  if n < 0 then "-" ++ natRepr n.natAbs else natRepr n.natAbs

/-- Left-pad a string with `'0'` up to length `k`. -/
def leftPadZ (k : Nat) (s : String) : String :=
  if s.length < k then ⟨List.replicate (k - s.length) '0' ++ s.toList⟩ else s

/-- Python `f"{n:02d}"`: decimal, zero-padded to width two (the sign,
when present, counts toward the width). -/
def pyFmt02 (n : Int) : String :=
  if n < 0 then "-" ++ leftPadZ 1 (natRepr n.natAbs) else leftPadZ 2 (natRepr n.natAbs)

/-- The characters Python `str.strip()` removes. -/
def isPySpace (c : Char) : Bool :=
  c = ' ' || c = '\t' || c = '\n' || c = '\x0d' || c = '\x0b' || c = '\x0c'

/-- Python `str.strip()` on a character list. -/
def pyStrip (cs : List Char) : List Char :=
  ((cs.dropWhile isPySpace).reverse.dropWhile isPySpace).reverse

/-- Longest prefix of decimal digits, and the rest. -/
def spanDigits : List Char → List Char × List Char
  | [] => ([], [])
  | c :: cs =>
    if c.isDigit then
      let p := spanDigits cs
      (c :: p.1, p.2)
    else ([], c :: cs)

/-- Lexicographic comparison of character lists by code point —
Python's `<=` on strings, which `list.sort(key=...)` uses. -/
def lexLe : List Char → List Char → Bool
  | [], _ => true
  | _ :: _, [] => false
  | a :: as, b :: bs =>
    if a.toNat < b.toNat then true
    else if b.toNat < a.toNat then false
    else lexLe as bs

/-! ## Calendar dates and the six `strptime` formats of `normalize_date` -/

/-- Gregorian leap year, as `datetime` validates it. -/
def isLeap (y : Nat) : Bool := y % 4 = 0 && (y % 100 ≠ 0 || y % 400 = 0)

/-- Number of days in month `m` of year `y`. -/
def daysInMonth (y m : Nat) : Nat :=
  if m = 2 then (if isLeap y then 29 else 28)
  else if m = 4 ∨ m = 6 ∨ m = 9 ∨ m = 11 then 30
  else 31

/-- The `datetime(y, m, d)` constructor: `some (y, m, d)` when the triple
is a valid Gregorian date in years 1–9999, else `none` (a `ValueError`
in Python, caught by `normalize_date`'s loop). -/
def mkValidDate (y m d : Nat) : Option (Nat × Nat × Nat) :=
  if 1 ≤ y ∧ y ≤ 9999 ∧ 1 ≤ m ∧ m ≤ 12 ∧ 1 ≤ d ∧ d ≤ daysInMonth y m then
    some (y, m, d)
  else none

/-- Read a one- or two-digit numeric field (what the `%m` / `%d`
`strptime` regexes can consume in front of a non-digit). -/
def readNum12 (cs : List Char) : Option (Nat × List Char) :=
  let p := spanDigits cs
  if 1 ≤ p.1.length ∧ p.1.length ≤ 2 then some (charsVal p.1, p.2) else none

/-- Read an exactly-four-digit numeric field (the `%Y` regex). -/
def readNum4 (cs : List Char) : Option (Nat × List Char) :=
  let p := spanDigits cs
  if p.1.length = 4 then some (charsVal p.1, p.2) else none

/-- Read an exactly-two-digit numeric field (the `%y` regex). -/
def readNum2 (cs : List Char) : Option (Nat × List Char) :=
  let p := spanDigits cs
  if p.1.length = 2 then some (charsVal p.1, p.2) else none

/-- Expect one given character. -/
def expectChar (c : Char) : List Char → Option (List Char)
  | [] => none
  | x :: xs => if x = c then some xs else none

/-- Expect one or more whitespace characters (a literal whitespace in a
`strptime` format string matches `\s+`). -/
def expectSpaces (cs : List Char) : Option (List Char) :=
  match cs with
  | [] => none
  | x :: xs => if isPySpace x then some (xs.dropWhile isPySpace) else none

/-- `strptime(s, "%Y-%m-%d")`, returning the date triple. -/
def parse_Ymd (cs : List Char) : Option (Nat × Nat × Nat) := do
  let (y, r1) ← readNum4 cs
  let r2 ← expectChar '-' r1
  let (m, r3) ← readNum12 r2
  let r4 ← expectChar '-' r3
  let (d, r5) ← readNum12 r4
  if r5 = [] then mkValidDate y m d else none

/-- `strptime(s, "%m/%d/%Y")`. -/
def parse_mdY (cs : List Char) : Option (Nat × Nat × Nat) := do
  let (m, r1) ← readNum12 cs
  let r2 ← expectChar '/' r1
  let (d, r3) ← readNum12 r2
  let r4 ← expectChar '/' r3
  let (y, r5) ← readNum4 r4
  if r5 = [] then mkValidDate y m d else none

/-- Century pivot of `%y`: 00–68 ↦ 2000–2068, 69–99 ↦ 1969–1999. -/
def y2toYear (y : Nat) : Nat := if y ≤ 68 then 2000 + y else 1900 + y

/-- `strptime(s, "%m/%d/%y")`. -/
def parse_mdy (cs : List Char) : Option (Nat × Nat × Nat) := do
  let (m, r1) ← readNum12 cs
  let r2 ← expectChar '/' r1
  let (d, r3) ← readNum12 r2
  let r4 ← expectChar '/' r3
  let (y, r5) ← readNum2 r4
  if r5 = [] then mkValidDate (y2toYear y) m d else none

/-- `strptime(s, "%d/%m/%Y")`. -/
def parse_dmY (cs : List Char) : Option (Nat × Nat × Nat) := do
  let (d, r1) ← readNum12 cs
  let r2 ← expectChar '/' r1
  let (m, r3) ← readNum12 r2
  let r4 ← expectChar '/' r3
  let (y, r5) ← readNum4 r4
  if r5 = [] then mkValidDate y m d else none

/-- ASCII lower-casing (the month names are ASCII, and the regex
matching is `re.IGNORECASE`). -/
def lowerChar (c : Char) : Char :=
  if 65 ≤ c.toNat ∧ c.toNat ≤ 90 then Char.ofNat (c.toNat + 32) else c

/-- Case-insensitively match a (lowercase) pattern as a prefix,
returning the rest of the input. -/
def startsWithCI : List Char → List Char → Option (List Char)
  | [], cs => some cs
  | _ :: _, [] => none
  | p :: ps, c :: cs => if lowerChar c = p then startsWithCI ps cs else none

/-- Full month names (the C-locale `%B` alternation), lowercased. -/
def monthsFull : List (List Char × Nat) :=
  [("january".toList, 1), ("february".toList, 2), ("march".toList, 3),
   ("april".toList, 4), ("may".toList, 5), ("june".toList, 6),
   ("july".toList, 7), ("august".toList, 8), ("september".toList, 9),
   ("october".toList, 10), ("november".toList, 11), ("december".toList, 12)]

/-- Abbreviated month names (the C-locale `%b` alternation), lowercased. -/
def monthsAbbr : List (List Char × Nat) :=
  [("jan".toList, 1), ("feb".toList, 2), ("mar".toList, 3),
   ("apr".toList, 4), ("may".toList, 5), ("jun".toList, 6),
   ("jul".toList, 7), ("aug".toList, 8), ("sep".toList, 9),
   ("oct".toList, 10), ("nov".toList, 11), ("dec".toList, 12)]

/-- Match one month name from a table. -/
def matchMonthIn : List (List Char × Nat) → List Char → Option (Nat × List Char)
  | [], _ => none
  | (nm, v) :: rest, cs =>
    match startsWithCI nm cs with
    | some r => some (v, r)
    | none => matchMonthIn rest cs

/-- `strptime(s, "%B %d, %Y")` / `strptime(s, "%b %d, %Y")`,
parameterised by the month-name table. -/
def parseMonthNameDate (table : List (List Char × Nat)) (cs : List Char) :
    Option (Nat × Nat × Nat) := do
  let (m, r1) ← matchMonthIn table cs
  let r2 ← expectSpaces r1
  let (d, r3) ← readNum12 r2
  let r4 ← expectChar ',' r3
  let r5 ← expectSpaces r4
  let (y, r6) ← readNum4 r5
  if r6 = [] then mkValidDate y m d else none

/-- `strptime(s, "%B %d, %Y")`. -/
def parse_BdY (cs : List Char) : Option (Nat × Nat × Nat) :=
  parseMonthNameDate monthsFull cs

/-- `strptime(s, "%b %d, %Y")`. -/
def parse_bdY (cs : List Char) : Option (Nat × Nat × Nat) :=
  parseMonthNameDate monthsAbbr cs

/-- `datetime.strftime("%Y-%m-%d")`: year zero-padded to four digits,
month and day to two (as documented for `%Y`/`%m`/`%d`). -/
def fmtDate (y m d : Nat) : String :=
  ⟨padNum 4 y ++ '-' :: (padNum 2 m ++ '-' :: padNum 2 d)⟩

/-- First parser of an ordered list to succeed — the
`for fmt in (...)` / `try` / `except ValueError: continue` loop. -/
def firstParse : List (List Char → Option (Nat × Nat × Nat)) → List Char →
    Option (Nat × Nat × Nat)
  | [], _ => none
  | f :: fs, cs =>
    match f cs with
    | some r => some r
    | none => firstParse fs cs

/-- The ordered format list tried by `normalize_date`:
`"%Y-%m-%d", "%m/%d/%Y", "%m/%d/%y", "%d/%m/%Y", "%B %d, %Y", "%b %d, %Y"`. -/
def dateFormats : List (List Char → Option (Nat × Nat × Nat)) :=
  [parse_Ymd, parse_mdY, parse_mdy, parse_dmY, parse_BdY, parse_bdY]

/-- `normalize_date(val)` from the source: `None` for a falsy (empty)
value; otherwise the first format of the fixed ordered list that parses
`val.strip()` wins and is re-rendered as `YYYY-MM-DD`; if none parses,
the stripped original string is returned unchanged. -/
def normalize_date (val : String) : Option String :=
  if val = "" then none
  else
    let s := pyStrip val.toList
    match firstParse dateFormats s with
    | some (y, m, d) => some (fmtDate y m d)
    | none => some ⟨s⟩

/-! ## TokenManager: `ensure_strava_token` -/

/-- The `config["strava"]` credential block. -/
structure StravaConfig where
  client_id : String
  client_secret : String
  access_token : String
  refresh_token : String
  token_expires_at : Int
deriving DecidableEq

/-- JSON body of a successful token-endpoint response. -/
structure TokenResponse where
  access_token : String
  refresh_token : String
  expires_at : Int
deriving DecidableEq

/-- Result of `ensure_strava_token`: the returned token, the credential
state afterwards, whether the token endpoint was called, and whether
`save_config` ran. -/
structure TokenResult where
  token : String
  config : StravaConfig
  networkCalled : Bool
  saved : Bool
deriving DecidableEq

/-- `ensure_strava_token(config)`: if `time.time() < expires_at - 60`
the cached access token is returned unchanged with no network call;
otherwise a refresh exchange is performed (its response is the oracle
`resp`), the credential fields are replaced by the response values,
the config is saved, and the response's access token is returned.
`now` is the value of `time.time()`. -/
def ensure_strava_token (cfg : StravaConfig) (now : ℚ) (resp : TokenResponse) : TokenResult :=
  if now < (cfg.token_expires_at : ℚ) - 60 then
    ⟨cfg.access_token, cfg, false, false⟩
  else
    ⟨resp.access_token,
     { cfg with
        access_token := resp.access_token
        refresh_token := resp.refresh_token
        token_expires_at := resp.expires_at },
     true, true⟩

/-! ## ActivityFetcher: `fetch_activities` and `parse_activity` -/

/-- A raw Strava activity as the JSON API returns it: distance in
meters, moving time in seconds, a type tag, local and UTC start
timestamps, a display name (`type`, `start_date_local` and `name` are
read with `.get`, so they may be absent). -/
structure RawActivity where
  distance : ℚ
  moving_time : Int
  type : Option String
  start_date_local : Option String
  start_date : String
  name : Option String

/-- `per_page` in `fetch_activities`. -/
def pageSize : Nat := 50

/-- The `while True` pagination loop of `fetch_activities`. `pages` is
the network oracle (page number ↦ response body), `fuel` bounds the
iteration count so that the function is total, `acc` is `activities`
and `reqs` records every page number requested, in order. Returns
`none` only when fuel runs out (the Python loop not yet terminated). -/
def fetchLoop (pages : Nat → List RawActivity) :
    Nat → Nat → List RawActivity → List Nat → Option (List RawActivity × List Nat)
  | 0, _, _, _ => none
  | fuel + 1, page, acc, reqs =>
    let batch := pages page
    let reqs2 := reqs ++ [page]
    if batch.isEmpty then some (acc, reqs2)
    else if batch.length < pageSize then some (acc ++ batch, reqs2)
    else fetchLoop pages fuel (page + 1) (acc ++ batch) reqs2

/-- `fetch_activities`: paginate from page 1, then filter to the
requested activity type when that argument is truthy (a non-empty
string). Returns the filtered activities and the request trace. -/
def fetch_activities (pages : Nat → List RawActivity) (fuel : Nat)
    (activity_type : String) : Option (List RawActivity × List Nat) :=
  (fetchLoop pages fuel 1 [] []).map fun r =>
    (if activity_type ≠ "" then r.1.filter (fun a => a.type == some activity_type) else r.1,
     r.2)

/-- Python `int()` on a real value: truncation toward zero. -/
def pyInt (q : ℚ) : Int := Int.tdiv q.num q.den

/-- Python `//` on floats: floor division, returning a (here integral)
real value. -/
def pyFloorDiv (x y : ℚ) : ℚ := (⌊x / y⌋ : ℤ)

/-- Python `%` on floats: `x - y*⌊x/y⌋` (sign follows the divisor). -/
def pyMod (x y : ℚ) : ℚ := x - y * (⌊x / y⌋ : ℤ)

/-- Banker's rounding to an integer (Python `round` resolves ties to
the even neighbour). -/
def roundHalfEven (x : ℚ) : Int :=
  let f := ⌊x⌋
  let r := x - (f : ℚ)
  if r < 1 / 2 then f
  else if 1 / 2 < r then f + 1
  else if f % 2 = 0 then f else f + 1

/-- Python `round(x, 2)`. -/
def round2 (x : ℚ) : ℚ := (roundHalfEven (x * 100) : ℚ) / 100

/-- `moving_time_s / distance` — pace in seconds per unit. -/
def paceTotal (distance : ℚ) (moving_time_s : Int) : ℚ := (moving_time_s : ℚ) / distance

/-- `int(pace_total_seconds // 60)`. -/
def paceMinutes (distance : ℚ) (moving_time_s : Int) : Int :=
  pyInt (pyFloorDiv (paceTotal distance moving_time_s) 60)

/-- `int(pace_total_seconds % 60)`. -/
def paceSeconds (distance : ℚ) (moving_time_s : Int) : Int :=
  pyInt (pyMod (paceTotal distance moving_time_s) 60)

/-- The pace block of `parse_activity`: `f"{pace_min}:{pace_sec:02d}"`
when `distance > 0`, else `"N/A"`. -/
def paceStr (distance : ℚ) (moving_time_s : Int) : String :=
  if 0 < distance then
    numStr (paceMinutes distance moving_time_s) ++ ":" ++ pyFmt02 (paceSeconds distance moving_time_s)
  else "N/A"

/-- The duration block of `parse_activity`: `H:MM:SS` when the hour
field is truthy (non-zero), else `M:SS`. Integer `//` and `%` in
Python floor toward negative infinity. -/
def durationStr (moving_time_s : Int) : String :=
  let hours := Int.fdiv moving_time_s 3600
  let mins := Int.fdiv (Int.fmod moving_time_s 3600) 60
  let secs := Int.fmod moving_time_s 60
  if hours ≠ 0 then numStr hours ++ ":" ++ pyFmt02 mins ++ ":" ++ pyFmt02 secs
  else numStr mins ++ ":" ++ pyFmt02 secs

/-- `start_local.replace("Z", "+00:00")`. -/
def pyReplaceZ (s : String) : String :=
  ⟨s.toList.flatMap fun c => if c = 'Z' then "+00:00".toList else [c]⟩

/-- The calendar-date component accepted by `datetime.fromisoformat`:
`YYYY-MM-DD` (month and day zero-padded to two digits), optionally
followed by a `'T'` or `' '` separator and a time-of-day part, which
`parse_activity` discards (the time digits are not re-validated here,
so a timestamp with a malformed time but a well-formed date is
accepted by this model). -/
def isoDateOf (cs : List Char) : Option (Nat × Nat × Nat) := do
  let (y, r1) ← readNum4 cs
  let r2 ← expectChar '-' r1
  let (m, r3) ← readNum2 r2
  let r4 ← expectChar '-' r3
  let (d, r5) ← readNum2 r4
  match r5 with
  | [] => mkValidDate y m d
  | c :: _ => if c = 'T' ∨ c = ' ' then mkValidDate y m d else none

/-- The unit selection of `parse_activity`: distance in the selected
unit together with its label. -/
def distanceVal (units : String) (distance_m : ℚ) : ℚ × String :=
  if units = "miles" then (distance_m / 1609.344, "mi") else (distance_m / 1000, "km")

/-- The canonical record `parse_activity` returns. -/
structure ParsedActivity where
  date : String
  distance : ℚ
  pace : String
  duration : String
  name : String

/-- `parse_activity(activity, units)`: distance converted and rounded
to two decimals, pace and duration formatted, the calendar date taken
from the local start timestamp (falling back to the UTC one), the name
defaulting to `""`. `none` models the `ValueError` Python would raise
on an unparseable timestamp. -/
def parse_activity (activity : RawActivity) (units : String) : Option ParsedActivity :=
  let distance := (distanceVal units activity.distance).1
  let pace := paceStr distance activity.moving_time
  let dur := durationStr activity.moving_time
  let start := activity.start_date_local.getD activity.start_date
  match isoDateOf (pyReplaceZ start).toList with
  | some (y, m, d) =>
    some ⟨fmtDate y m d, round2 distance, pace, dur, activity.name.getD ""⟩
  | none => none

/-! ## SheetReconciler: `find_date_row` and `update_sheet` -/

/-- A value written to a cell (`USER_ENTERED` typed semantics: numbers
stay numbers, strings stay strings). -/
inductive Value where
  | num (q : ℚ)
  | str (s : String)
deriving DecidableEq

/-- One `gspread.Cell(row, col, value)`. -/
structure Cell where
  row : Nat
  col : Nat
  val : Value
deriving DecidableEq

/-- The `config["sheet_mapping"]` block: mandatory date, distance and
pace columns; optional duration and notes columns (`mapping.get`). -/
structure SheetMapping where
  date_column : Nat
  distance_column : Nat
  pace_column : Nat
  duration_column : Option Nat
  notes_column : Option Nat
deriving DecidableEq

/-- Python truthiness of an optional column number: `None` and `0` are
falsy, any other number is the configured column. -/
def optCol : Option Nat → Option Nat
  | none => none
  | some c => if c = 0 then none else some c

/-- The `enumerate(date_values, start=1)` scan of `find_date_row`. -/
def findDateRowAux (dateStr : String) : Nat → List String → Option Nat
  | _, [] => none
  | i, v :: vs =>
    if normalize_date v = some dateStr then some i else findDateRowAux dateStr (i + 1) vs

/-- `find_date_row`: first 1-indexed row of the date column whose
normalized value equals `dateStr`, else `none`. `dateValues` is what
`worksheet.col_values(date_col)` returns. -/
def find_date_row (dateValues : List String) (dateStr : String) : Option Nat :=
  findDateRowAux dateStr 1 dateValues

/-- The batch of cells `update_sheet` builds for one matched record:
distance and pace always; duration when its column is configured
(truthy); the activity name when the notes column is configured and
the name is non-empty (`if notes_col and act["name"]`). -/
def buildCells (m : SheetMapping) (row : Nat) (act : ParsedActivity) : List Cell :=
  [⟨row, m.distance_column, .num act.distance⟩, ⟨row, m.pace_column, .str act.pace⟩]
  ++ (match optCol m.duration_column with
      | some c => [⟨row, c, .str act.duration⟩]
      | none => [])
  ++ (match optCol m.notes_column with
      | some c => if act.name ≠ "" then [⟨row, c, .str act.name⟩] else []
      | none => [])

/-- The per-record loop of `update_sheet`, returning
`(updates, skipped, batches)`: the update count, the skipped dates in
order, and the list of `update_cells` batches in order. The date
column (read through `find_date_row` on each iteration) is modelled as
the fixed list `dateValues`; the write batches never touch it as long
as it is not also configured as a write column. -/
def update_sheet (dateValues : List String) (m : SheetMapping) :
    List ParsedActivity → Nat × List String × List (List Cell)
  | [] => (0, [], [])
  | act :: rest =>
    match find_date_row dateValues act.date with
    | none =>
      let r := update_sheet dateValues m rest
      (r.1, act.date :: r.2.1, r.2.2)
    | some row =>
      let r := update_sheet dateValues m rest
      (r.1 + 1, r.2.1, buildCells m row act :: r.2.2)

/-- Replay one cell write onto a cell-state function. -/
def writeCell (st : Nat × Nat → Option Value) (c : Cell) : Nat × Nat → Option Value :=
  fun p => if p = (c.row, c.col) then some c.val else st p

/-- Replay one `update_cells` batch. -/
def applyBatch (st : Nat × Nat → Option Value) (cells : List Cell) : Nat × Nat → Option Value :=
  cells.foldl writeCell st

/-- Replay a whole run's batches, in order. -/
def applyLog (st : Nat × Nat → Option Value) (log : List (List Cell)) : Nat × Nat → Option Value :=
  log.foldl applyBatch st

/-- The columns a run may write: distance, pace, and the configured
optional columns. -/
def writeCols (m : SheetMapping) : List Nat :=
  m.distance_column :: m.pace_column ::
    ((optCol m.duration_column).toList ++ (optCol m.notes_column).toList)

/-! ## `main`: sorting before reconciliation -/

/-- The sort key comparison: Python compares the `date` strings. -/
def dateLe (a b : ParsedActivity) : Bool := lexLe a.date.toList b.date.toList

/-- Insert into an already-sorted list, before the first element not
strictly smaller — the stable insertion step. -/
def sortInsert (a : ParsedActivity) : List ParsedActivity → List ParsedActivity
  | [] => [a]
  | b :: bs => if dateLe a b then a :: b :: bs else b :: sortInsert a bs

/-- `parsed.sort(key=lambda x: x["date"])`: a stable ascending sort on
the date key (Python's sort is stable; any stable ascending sort is an
adequate model). -/
def pySortByDate : List ParsedActivity → List ParsedActivity
  | [] => []
  | a :: as => sortInsert a (pySortByDate as)

/-! ## Helper lemmas: digit strings -/

lemma digitChar_isDigit {m : Nat} (h : m < 10) : (Nat.digitChar m).isDigit = true := by
  interval_cases m <;> decide

lemma digitVal_digitChar {m : Nat} (h : m < 10) : digitVal (Nat.digitChar m) = m := by
  interval_cases m <;> decide

lemma padNum_length (k n : Nat) : (padNum k n).length = k := by
  induction k generalizing n with
  | zero => rfl
  | succ k ih => simp [padNum, ih]

lemma padNum_all_digits (k n : Nat) : ∀ c ∈ padNum k n, c.isDigit = true := by
  induction k generalizing n with
  | zero => simp [padNum]
  | succ k ih =>
    intro c hc
    rcases List.mem_append.1 hc with h | h
    · exact ih _ c h
    · simp only [List.mem_singleton] at h
      exact h ▸ digitChar_isDigit (Nat.mod_lt _ (by norm_num))

lemma charsVal_append_singleton (xs : List Char) (c : Char) :
    charsVal (xs ++ [c]) = 10 * charsVal xs + digitVal c := by
  simp [charsVal, List.foldl_append]

lemma charsVal_padNum (k n : Nat) : charsVal (padNum k n) = n % 10 ^ k := by
  induction k generalizing n with
  | zero => simp [padNum, charsVal, Nat.mod_one]
  | succ k ih =>
    rw [padNum, charsVal_append_singleton, ih,
        digitVal_digitChar (Nat.mod_lt _ (by norm_num))]
    have h10 : (0 : Nat) < 10 ^ k := Nat.pos_pow_of_pos k (by norm_num)
    have hlt : 10 * (n / 10 % 10 ^ k) + n % 10 < 10 * 10 ^ k := by
      have h1 : n / 10 % 10 ^ k < 10 ^ k := Nat.mod_lt _ h10
      have h2 : n % 10 < 10 := Nat.mod_lt _ (by norm_num)
      omega
    have hdecomp : n = 10 * (n / 10 % 10 ^ k) + n % 10 + 10 * 10 ^ k * (n / 10 / 10 ^ k) := by
      have e1 : n = 10 * (n / 10) + n % 10 := by omega
      have e2 : n / 10 = 10 ^ k * (n / 10 / 10 ^ k) + n / 10 % 10 ^ k :=
        (Nat.div_add_mod _ _).symm
      calc n = 10 * (n / 10) + n % 10 := e1
        _ = 10 * (10 ^ k * (n / 10 / 10 ^ k) + n / 10 % 10 ^ k) + n % 10 := by rw [← e2]
        _ = 10 * (n / 10 % 10 ^ k) + n % 10 + 10 * 10 ^ k * (n / 10 / 10 ^ k) := by ring
    calc 10 * (n / 10 % 10 ^ k) + n % 10
        = (10 * (n / 10 % 10 ^ k) + n % 10) % (10 * 10 ^ k) :=
          (Nat.mod_eq_of_lt hlt).symm
      _ = (10 * (n / 10 % 10 ^ k) + n % 10 + 10 * 10 ^ k * (n / 10 / 10 ^ k)) % (10 * 10 ^ k) := by
          rw [Nat.add_mul_mod_self_left]
      _ = n % 10 ^ (k + 1) := by rw [← hdecomp]; ring_nf

lemma charsVal_padNum_of_lt {k n : Nat} (h : n < 10 ^ k) : charsVal (padNum k n) = n := by
  rw [charsVal_padNum, Nat.mod_eq_of_lt h]

lemma spanDigits_all (A : List Char) (h : ∀ c ∈ A, c.isDigit = true) :
    spanDigits A = (A, []) := by
  induction A with
  | nil => rfl
  | cons a as ih =>
    simp only [spanDigits, h a (List.mem_cons_self a as), if_pos]
    rw [ih fun c hc => h c (List.mem_cons_of_mem a hc)]

lemma spanDigits_append (A : List Char) (c : Char) (B : List Char)
    (hA : ∀ x ∈ A, x.isDigit = true) (hc : c.isDigit = false) :
    spanDigits (A ++ c :: B) = (A, c :: B) := by
  induction A with
  | nil => simp [spanDigits, hc]
  | cons a as ih =>
    simp only [List.cons_append, spanDigits, hA a (List.mem_cons_self a as), if_pos,
      List.append_eq]
    rw [ih fun x hx => hA x (List.mem_cons_of_mem a hx)]

/-! ## Helper lemmas: character classes and stripping -/

lemma isDigit_toNat_bounds {c : Char} (h : c.isDigit = true) :
    48 ≤ c.toNat ∧ c.toNat ≤ 57 := by
  simpa only [Char.isDigit, Bool.and_eq_true, decide_eq_true_eq] using h

lemma isPySpace_false_of_digit {c : Char} (h : c.isDigit = true) : isPySpace c = false := by
  cases hsp : isPySpace c
  · rfl
  · exfalso
    simp only [isPySpace, Bool.or_eq_true, decide_eq_true_eq] at hsp
    rcases hsp with ((((rfl | rfl) | rfl) | rfl) | rfl) | rfl <;> exact absurd h (by decide)

lemma lowerChar_of_digit {c : Char} (h : c.isDigit = true) : lowerChar c = c := by
  have hb := isDigit_toNat_bounds h
  unfold lowerChar
  rw [if_neg]
  omega

lemma dropWhile_eq_self_of_false {l : List Char} (h : ∀ c ∈ l, isPySpace c = false) :
    l.dropWhile isPySpace = l := by
  cases l with
  | nil => rfl
  | cons a as => simp [List.dropWhile_cons, h a (List.mem_cons_self a as)]

lemma pyStrip_eq_self {l : List Char} (h : ∀ c ∈ l, isPySpace c = false) : pyStrip l = l := by
  unfold pyStrip
  rw [dropWhile_eq_self_of_false h,
      dropWhile_eq_self_of_false (fun c hc => h c (List.mem_reverse.1 hc)),
      List.reverse_reverse]

/-! ## Helper lemmas: `fmtDate` round-trips through the parsers -/

lemma fmtDate_toList (y m d : Nat) :
    (fmtDate y m d).toList = padNum 4 y ++ '-' :: (padNum 2 m ++ '-' :: padNum 2 d) := rfl

lemma fmtDate_chars (y m d : Nat) :
    ∀ c ∈ (fmtDate y m d).toList, c.isDigit = true ∨ c = '-' := by
  intro c hc
  rw [fmtDate_toList] at hc
  rcases List.mem_append.1 hc with h | h
  · exact Or.inl (padNum_all_digits 4 y c h)
  · rcases List.mem_cons.1 h with h | h
    · exact Or.inr h
    · rcases List.mem_append.1 h with h | h
      · exact Or.inl (padNum_all_digits 2 m c h)
      · rcases List.mem_cons.1 h with h | h
        · exact Or.inr h
        · exact Or.inl (padNum_all_digits 2 d c h)

lemma pyStrip_fmtDate (y m d : Nat) : pyStrip (fmtDate y m d).toList = (fmtDate y m d).toList := by
  apply pyStrip_eq_self
  intro c hc
  rcases fmtDate_chars y m d c hc with h | h
  · exact isPySpace_false_of_digit h
  · subst h; decide

lemma fmtDate_ne_empty (y m d : Nat) : fmtDate y m d ≠ "" := by
  intro h
  have : (fmtDate y m d).toList = ([] : List Char) := by rw [h]; rfl
  rw [fmtDate_toList] at this
  have h4 : (padNum 4 y).length = 4 := padNum_length 4 y
  have : (padNum 4 y ++ '-' :: (padNum 2 m ++ '-' :: padNum 2 d)).length = 0 := by
    rw [this]; rfl
  simp [List.length_append, h4] at this

lemma spanDigits_fmtDate (y m d : Nat) :
    spanDigits (fmtDate y m d).toList =
      (padNum 4 y, '-' :: (padNum 2 m ++ '-' :: padNum 2 d)) := by
  rw [fmtDate_toList]
  exact spanDigits_append _ _ _ (padNum_all_digits 4 y) (by decide)

lemma parse_Ymd_fmtDate {y m d : Nat} (hy : y < 10000) (hm : m < 100) (hd : d < 100) :
    parse_Ymd (fmtDate y m d).toList = mkValidDate y m d := by
  have e1 : charsVal (padNum 4 y) = y := charsVal_padNum_of_lt (by norm_num [hy])
  have e2 : charsVal (padNum 2 m) = m := charsVal_padNum_of_lt (by norm_num [hm])
  have e3 : charsVal (padNum 2 d) = d := charsVal_padNum_of_lt (by norm_num [hd])
  have h2m : spanDigits (padNum 2 m ++ '-' :: padNum 2 d) = (padNum 2 m, '-' :: padNum 2 d) :=
    spanDigits_append _ _ _ (padNum_all_digits 2 m) (by decide)
  have h2d : spanDigits (padNum 2 d) = (padNum 2 d, []) :=
    spanDigits_all _ (padNum_all_digits 2 d)
  rw [fmtDate_toList] at *
  simp [parse_Ymd, readNum4, readNum12, spanDigits_append _ _ _ (padNum_all_digits 4 y) (by decide : ('-').isDigit = false),
    h2m, h2d, padNum_length, expectChar, e1, e2, e3]

lemma readNum12_fmtDate (y m d : Nat) : readNum12 (fmtDate y m d).toList = none := by
  simp only [readNum12, spanDigits_fmtDate, padNum_length]
  norm_num

lemma parse_mdY_fmtDate (y m d : Nat) : parse_mdY (fmtDate y m d).toList = none := by
  unfold parse_mdY
  rw [readNum12_fmtDate]
  rfl

lemma parse_mdy_fmtDate (y m d : Nat) : parse_mdy (fmtDate y m d).toList = none := by
  unfold parse_mdy
  rw [readNum12_fmtDate]
  rfl

lemma parse_dmY_fmtDate (y m d : Nat) : parse_dmY (fmtDate y m d).toList = none := by
  unfold parse_dmY
  rw [readNum12_fmtDate]
  rfl

/-- Each month-name table entry is a non-empty name starting with a
non-digit. -/
def monthTableOk (table : List (List Char × Nat)) : Bool :=
  table.all fun e =>
    match e.1 with
    | [] => false
    | p :: _ => !p.isDigit

lemma matchMonthIn_none_of_digit {table : List (List Char × Nat)} {c : Char} {cs : List Char}
    (hc : c.isDigit = true) (ht : monthTableOk table = true) :
    matchMonthIn table (c :: cs) = none := by
  induction table with
  | nil => rfl
  | cons e rest ih =>
    have he : (match e.1 with | [] => false | p :: _ => !p.isDigit) = true := by
      have := (List.all_eq_true.1 ht) e (List.mem_cons_self e rest)
      exact this
    have hrest : monthTableOk rest = true := by
      apply List.all_eq_true.2
      intro x hx
      exact (List.all_eq_true.1 ht) x (List.mem_cons_of_mem e hx)
    obtain ⟨nm, v⟩ := e
    cases hnm : nm with
    | nil => rw [hnm] at he; simp at he
    | cons p ps =>
      rw [hnm] at he
      simp only [Bool.not_eq_true'] at he
      have hne : lowerChar c ≠ p := by
        rw [lowerChar_of_digit hc]
        intro hcp
        rw [hcp] at hc
        rw [hc] at he
        exact absurd he (by simp)
      simp only [matchMonthIn, hnm, startsWithCI, if_neg hne]
      exact ih hrest

lemma parse_BdY_fmtDate (y m d : Nat) : parse_BdY (fmtDate y m d).toList = none := by
  have hlen : (padNum 4 y).length = 4 := padNum_length 4 y
  rcases hp : padNum 4 y with _ | ⟨c, cs⟩
  · rw [hp] at hlen; simp at hlen
  · have hc : c.isDigit = true := by
      apply padNum_all_digits 4 y
      rw [hp]; exact List.mem_cons_self c cs
    have : (fmtDate y m d).toList = c :: (cs ++ '-' :: (padNum 2 m ++ '-' :: padNum 2 d)) := by
      rw [fmtDate_toList, hp]; rfl
    rw [parse_BdY, parseMonthNameDate, this,
        matchMonthIn_none_of_digit hc (by decide : monthTableOk monthsFull = true)]
    rfl

lemma parse_bdY_fmtDate (y m d : Nat) : parse_bdY (fmtDate y m d).toList = none := by
  have hlen : (padNum 4 y).length = 4 := padNum_length 4 y
  rcases hp : padNum 4 y with _ | ⟨c, cs⟩
  · rw [hp] at hlen; simp at hlen
  · have hc : c.isDigit = true := by
      apply padNum_all_digits 4 y
      rw [hp]; exact List.mem_cons_self c cs
    have : (fmtDate y m d).toList = c :: (cs ++ '-' :: (padNum 2 m ++ '-' :: padNum 2 d)) := by
      rw [fmtDate_toList, hp]; rfl
    rw [parse_bdY, parseMonthNameDate, this,
        matchMonthIn_none_of_digit hc (by decide : monthTableOk monthsAbbr = true)]
    rfl

lemma parse_Ymd_none_of_mdY {cs : List Char} {t : Nat × Nat × Nat}
    (h : parse_mdY cs = some t) : parse_Ymd cs = none := by
  rcases hsp : spanDigits cs with ⟨A, B⟩
  have hlen : 1 ≤ A.length ∧ A.length ≤ 2 := by
    by_contra hcon
    unfold parse_mdY readNum12 at h
    rw [hsp] at h
    simp only [if_neg hcon] at h
    exact absurd h (by simp)
  have h4 : A.length ≠ 4 := by omega
  unfold parse_Ymd readNum4
  rw [hsp]
  simp only [if_neg h4]
  rfl

/-- C3: a string that parses under both the month-first (`%m/%d/%Y`)
and the day-first (`%d/%m/%Y`) slash patterns is resolved by
`normalize_date` to the month-first interpretation, canonicalized to
`YYYY-MM-DD`, because the format list is tried in the fixed order ISO,
month-first 4-digit year, month-first 2-digit year, day-first, then
month-name forms, and the first successful parse wins. -/
theorem normalize_date_ambiguous_slash_month_first (s : String) (y m d : Nat)
    (t : Nat × Nat × Nat)
    (h1 : parse_mdY (pyStrip s.toList) = some (y, m, d))
    (h2 : parse_dmY (pyStrip s.toList) = some t) :
    normalize_date s = some (fmtDate y m d) := by
  have hne : s ≠ "" := by
    rintro rfl
    rw [show pyStrip ("" : String).toList = [] from rfl] at h1
    rw [show parse_mdY ([] : List Char) = none from rfl] at h1
    exact absurd h1 (by simp)
  unfold normalize_date
  rw [if_neg hne]
  simp only [dateFormats, firstParse, parse_Ymd_none_of_mdY h1, h1]

/-- Witness for C3 at the ambiguous input `"03/04/2024"`. -/
theorem normalize_date_ambiguous_slash_month_first_witness :
    parse_mdY (pyStrip ("03/04/2024" : String).toList) = some (2024, 3, 4) ∧
    parse_dmY (pyStrip ("03/04/2024" : String).toList) = some (2024, 4, 3) ∧
    normalize_date "03/04/2024" = some (fmtDate 2024 3 4) ∧
    fmtDate 2024 3 4 = "2024-03-04" :=
  ⟨by decide, by decide,
   normalize_date_ambiguous_slash_month_first "03/04/2024" 2024 3 4 (2024, 4, 3)
     (by decide) (by decide),
   by decide⟩

/-- C9: `normalize_date` maps every already-canonical `YYYY-MM-DD`
string (four-digit year, two-digit month and day fields — every such
string is `fmtDate y m d` for some `y < 10000`, `m < 100`, `d < 100`)
to itself, so composing `normalize_date` with itself agrees with a
single application on canonical input. -/
theorem normalize_date_canonical_idempotent (y m d : Nat)
    (hy : y < 10000) (hm : m < 100) (hd : d < 100) :
    normalize_date (fmtDate y m d) = some (fmtDate y m d) ∧
    (normalize_date (fmtDate y m d)).bind normalize_date = normalize_date (fmtDate y m d) := by
  have h1 : normalize_date (fmtDate y m d) = some (fmtDate y m d) := by
    unfold normalize_date
    rw [if_neg (fmtDate_ne_empty y m d)]
    simp only [pyStrip_fmtDate]
    by_cases hval : 1 ≤ y ∧ y ≤ 9999 ∧ 1 ≤ m ∧ m ≤ 12 ∧ 1 ≤ d ∧ d ≤ daysInMonth y m
    · have hvd : mkValidDate y m d = some (y, m, d) := by rw [mkValidDate, if_pos hval]
      have hfp : firstParse dateFormats (fmtDate y m d).toList = some (y, m, d) := by
        simp only [dateFormats, firstParse, parse_Ymd_fmtDate hy hm hd, hvd]
      rw [hfp]
    · have hvd : mkValidDate y m d = none := by rw [mkValidDate, if_neg hval]
      have hfp : firstParse dateFormats (fmtDate y m d).toList = none := by
        simp only [dateFormats, firstParse, parse_Ymd_fmtDate hy hm hd, hvd,
          parse_mdY_fmtDate, parse_mdy_fmtDate, parse_dmY_fmtDate,
          parse_BdY_fmtDate, parse_bdY_fmtDate]
      rw [hfp]
      rfl
  refine ⟨h1, ?_⟩
  rw [h1, Option.some_bind]
  exact h1

/-- Witness for C9 at `2024-03-15` (valid date) and `2024-13-45`
(canonical shape, invalid date). -/
theorem normalize_date_canonical_idempotent_witness :
    ((2024 < 10000 ∧ 3 < 100 ∧ 15 < 100) ∧
      normalize_date (fmtDate 2024 3 15) = some (fmtDate 2024 3 15)) ∧
    ((2024 < 10000 ∧ 13 < 100 ∧ 45 < 100) ∧
      normalize_date (fmtDate 2024 13 45) = some (fmtDate 2024 13 45)) :=
  ⟨⟨by decide, (normalize_date_canonical_idempotent 2024 3 15 (by decide) (by decide) (by decide)).1⟩,
   ⟨by decide, (normalize_date_canonical_idempotent 2024 13 45 (by decide) (by decide) (by decide)).1⟩⟩

/-- C1: token freshness. When `expiresAtEpochSeconds - now > 60`,
`ensure_strava_token` returns the cached access token with the
credential unchanged, no network call and no save; otherwise it
performs the refresh exchange and returns the access token of the
refresh response. -/
theorem ensure_strava_token_freshness (cfg : StravaConfig) (now : ℚ) (resp : TokenResponse) :
    ((cfg.token_expires_at : ℚ) - now > 60 →
      ensure_strava_token cfg now resp = ⟨cfg.access_token, cfg, false, false⟩) ∧
    ((cfg.token_expires_at : ℚ) - now ≤ 60 →
      (ensure_strava_token cfg now resp).token = resp.access_token ∧
      (ensure_strava_token cfg now resp).networkCalled = true ∧
      (ensure_strava_token cfg now resp).saved = true) := by
  constructor
  · intro h
    unfold ensure_strava_token
    rw [if_pos (by linarith)]
  · intro h
    unfold ensure_strava_token
    rw [if_neg (by intro hc; linarith)]
    exact ⟨rfl, rfl, rfl⟩

/-- Witness for C1: `expires_at = now + 3600` takes the cached fast
path, `expires_at = now + 30` refreshes. -/
theorem ensure_strava_token_freshness_witness :
    (((⟨"i", "s", "tokA", "r", 3700⟩ : StravaConfig).token_expires_at : ℚ) - 100 > 60 ∧
      ensure_strava_token ⟨"i", "s", "tokA", "r", 3700⟩ 100 ⟨"tokB", "r2", 9000⟩ =
        ⟨"tokA", ⟨"i", "s", "tokA", "r", 3700⟩, false, false⟩) ∧
    (((⟨"i", "s", "tokA", "r", 130⟩ : StravaConfig).token_expires_at : ℚ) - 100 ≤ 60 ∧
      (ensure_strava_token ⟨"i", "s", "tokA", "r", 130⟩ 100 ⟨"tokB", "r2", 9000⟩).token = "tokB" ∧
      (ensure_strava_token ⟨"i", "s", "tokA", "r", 130⟩ 100 ⟨"tokB", "r2", 9000⟩).networkCalled = true ∧
      (ensure_strava_token ⟨"i", "s", "tokA", "r", 130⟩ 100 ⟨"tokB", "r2", 9000⟩).saved = true) :=
  ⟨⟨by norm_num, (ensure_strava_token_freshness ⟨"i", "s", "tokA", "r", 3700⟩ 100 ⟨"tokB", "r2", 9000⟩).1 (by norm_num)⟩,
   ⟨by norm_num, (ensure_strava_token_freshness ⟨"i", "s", "tokA", "r", 130⟩ 100 ⟨"tokB", "r2", 9000⟩).2 (by norm_num)⟩⟩

/-! ## Helper lemmas: `find_date_row` scans top-to-bottom -/

lemma findDateRowAux_spec {dd : String} {vs : List String} {k r : Nat}
    (h : findDateRowAux dd k vs = some r) :
    k ≤ r ∧
    (∃ v, vs.get? (r - k) = some v ∧ normalize_date v = some dd) ∧
    (∀ n, n < r - k → ∀ w, vs.get? n = some w → normalize_date w ≠ some dd) := by
  induction vs generalizing k with
  | nil => exact absurd h (by simp [findDateRowAux])
  | cons v vs ih =>
    rw [findDateRowAux] at h
    by_cases hv : normalize_date v = some dd
    · rw [if_pos hv] at h
      obtain rfl : k = r := Option.some.inj h
      refine ⟨le_refl _, ⟨v, by simp, hv⟩, ?_⟩
      intro n hn
      omega
    · rw [if_neg hv] at h
      obtain ⟨hk, ⟨w, hw, hnw⟩, hmin⟩ := ih h
      have hkr : k < r := by omega
      refine ⟨by omega, ⟨w, ?_, hnw⟩, ?_⟩
      · have : r - k = (r - (k + 1)) + 1 := by omega
        rw [this]
        simpa using hw
      · intro n hn w2 hw2 hnw2
        cases n with
        | zero =>
          simp at hw2
          exact hv (hw2 ▸ hnw2)
        | succ n =>
          have hn2 : n < r - (k + 1) := by omega
          exact hmin n hn2 w2 (by simpa using hw2) hnw2

lemma findDateRowAux_exists {dd v : String} {vs : List String} {n : Nat}
    (hv : vs.get? n = some v) (hn : normalize_date v = some dd) :
    ∀ k, ∃ r, findDateRowAux dd k vs = some r ∧ r ≤ k + n := by
  induction vs generalizing n with
  | nil => simp at hv
  | cons w vs ih =>
    intro k
    rw [findDateRowAux]
    by_cases hw : normalize_date w = some dd
    · exact ⟨k, by rw [if_pos hw], by omega⟩
    · cases n with
      | zero =>
        simp at hv
        exact absurd (hv ▸ hn) hw
      | succ n =>
        obtain ⟨r, hr, hrle⟩ := ih (by simpa using hv) (k + 1)
        exact ⟨r, by rw [if_neg hw]; exact hr, by omega⟩

/-- `find_date_row` returns a row whose value normalizes to the target,
and no earlier row does. -/
lemma find_date_row_spec {dv : List String} {dd : String} {r : Nat}
    (h : find_date_row dv dd = some r) :
    1 ≤ r ∧
    (∃ v, dv.get? (r - 1) = some v ∧ normalize_date v = some dd) ∧
    (∀ n, n < r - 1 → ∀ w, dv.get? n = some w → normalize_date w ≠ some dd) :=
  findDateRowAux_spec h

/-- Two successful lookups at the same row have the same date. -/
lemma find_date_row_inj {dv : List String} {d1 d2 : String} {r : Nat}
    (h1 : find_date_row dv d1 = some r) (h2 : find_date_row dv d2 = some r) :
    d1 = d2 := by
  obtain ⟨-, ⟨v1, hv1, hn1⟩, -⟩ := find_date_row_spec h1
  obtain ⟨-, ⟨v2, hv2, hn2⟩, -⟩ := find_date_row_spec h2
  rw [hv1] at hv2
  obtain rfl : v1 = v2 := Option.some.inj hv2
  exact Option.some.inj (hn1.symm.trans hn2)

/-! ## Helper lemmas: batches, write logs and replay -/

lemma buildCells_mem {m : SheetMapping} {row : Nat} {act : ParsedActivity} :
    ∀ cell ∈ buildCells m row act, cell.row = row ∧ cell.col ∈ writeCols m := by
  intro cell hc
  unfold buildCells at hc
  rcases List.mem_append.1 hc with h | h
  · rcases List.mem_append.1 h with h | h
    · rcases List.mem_cons.1 h with h | h
      · subst h
        exact ⟨rfl, by simp [writeCols]⟩
      · rcases List.mem_cons.1 h with h | h
        · subst h
          exact ⟨rfl, by simp [writeCols]⟩
        · simp at h
    · rcases hdur : optCol m.duration_column with _ | c
      · rw [hdur] at h
        exact absurd h (by simp)
      · rw [hdur] at h
        have h2 : cell ∈ [(⟨row, c, Value.str act.duration⟩ : Cell)] := h
        rcases List.mem_singleton.1 h2 with rfl
        refine ⟨rfl, ?_⟩
        simp [writeCols, hdur]
  · rcases hnot : optCol m.notes_column with _ | c
    · rw [hnot] at h
      exact absurd h (by simp)
    · rw [hnot] at h
      have h2 : cell ∈ (if act.name ≠ "" then [(⟨row, c, Value.str act.name⟩ : Cell)] else []) := h
      by_cases hn : act.name ≠ ""
      · rw [if_pos hn] at h2
        rcases List.mem_singleton.1 h2 with rfl
        refine ⟨rfl, ?_⟩
        simp [writeCols, hnot]
      · rw [if_neg hn] at h2
        exact absurd h2 (by simp)

lemma update_sheet_log (dv : List String) (m : SheetMapping) (acts : List ParsedActivity) :
    (update_sheet dv m acts).2.2 =
      acts.filterMap fun a => (find_date_row dv a.date).map fun row => buildCells m row a := by
  induction acts with
  | nil => rfl
  | cons a rest ih =>
    rw [update_sheet]
    cases h : find_date_row dv a.date with
    | none => simpa [h] using ih
    | some row => simpa [h] using ih

lemma update_sheet_skipped (dv : List String) (m : SheetMapping) (acts : List ParsedActivity) :
    (update_sheet dv m acts).2.1 =
      (acts.filter fun a => (find_date_row dv a.date).isNone).map fun a => a.date := by
  induction acts with
  | nil => rfl
  | cons a rest ih =>
    rw [update_sheet]
    cases h : find_date_row dv a.date with
    | none => simpa [h, List.filter_cons] using ih
    | some row => simpa [h, List.filter_cons] using ih

lemma update_sheet_count (dv : List String) (m : SheetMapping) (acts : List ParsedActivity) :
    (update_sheet dv m acts).1 =
      ((acts.filter fun a => (find_date_row dv a.date).isSome).length) := by
  induction acts with
  | nil => rfl
  | cons a rest ih =>
    rw [update_sheet]
    cases h : find_date_row dv a.date with
    | none => simpa [h, List.filter_cons] using ih
    | some row => simpa [h, List.filter_cons] using ih

lemma applyBatch_no_hit {st : Nat × Nat → Option Value} {cells : List Cell} {q : Nat × Nat}
    (h : ∀ c ∈ cells, (c.row, c.col) ≠ q) : applyBatch st cells q = st q := by
  induction cells generalizing st with
  | nil => rfl
  | cons c rest ih =>
    rw [applyBatch, List.foldl_cons]
    have hrest : ∀ x ∈ rest, (x.row, x.col) ≠ q :=
      fun x hx => h x (List.mem_cons_of_mem c hx)
    rw [show List.foldl writeCell (writeCell st c) rest = applyBatch (writeCell st c) rest from rfl,
        ih hrest, writeCell, if_neg]
    intro hq
    exact h c (List.mem_cons_self c rest) (by rw [hq])

lemma applyLog_no_hit {st : Nat × Nat → Option Value} {log : List (List Cell)} {q : Nat × Nat}
    (h : ∀ b ∈ log, ∀ c ∈ b, (c.row, c.col) ≠ q) : applyLog st log q = st q := by
  induction log generalizing st with
  | nil => rfl
  | cons b rest ih =>
    rw [applyLog, List.foldl_cons]
    rw [show List.foldl applyBatch (applyBatch st b) rest = applyLog (applyBatch st b) rest from rfl,
        ih fun x hx => h x (List.mem_cons_of_mem b hx),
        applyBatch_no_hit (h b (List.mem_cons_self b rest))]

/-- C10: frame invariant of a reconciliation run. Every cell any batch
writes lies in a configured write column (distance, pace, configured
duration/notes) of a row matched by some record's date; a record with
no matching row produces no write and only lands in the skipped list;
and when the date column is not itself configured as a write column,
replaying the whole run leaves every cell of the date column unchanged. -/
theorem update_sheet_frame (dv : List String) (m : SheetMapping) (acts : List ParsedActivity) :
    (∀ batch ∈ (update_sheet dv m acts).2.2, ∀ cell ∈ batch,
        cell.col ∈ writeCols m ∧
        ∃ a ∈ acts, find_date_row dv a.date = some cell.row) ∧
    ((update_sheet dv m acts).2.1 =
      (acts.filter fun a => (find_date_row dv a.date).isNone).map fun a => a.date) ∧
    (m.date_column ∉ writeCols m →
      ∀ (st : Nat × Nat → Option Value) (r : Nat),
        applyLog st (update_sheet dv m acts).2.2 (r, m.date_column) = st (r, m.date_column)) := by
  have hmem : ∀ batch ∈ (update_sheet dv m acts).2.2, ∀ cell ∈ batch,
      cell.col ∈ writeCols m ∧ ∃ a ∈ acts, find_date_row dv a.date = some cell.row := by
    intro batch hb cell hcell
    rw [update_sheet_log] at hb
    obtain ⟨a, ha, hfa⟩ := List.mem_filterMap.1 hb
    cases hfind : find_date_row dv a.date with
    | none =>
      rw [hfind] at hfa
      exact absurd hfa (by simp)
    | some row =>
      rw [hfind] at hfa
      have hbatch : buildCells m row a = batch := by simpa using hfa
      have hcell2 := buildCells_mem cell (hbatch ▸ hcell)
      exact ⟨hcell2.2, a, ha, by rw [hfind, hcell2.1]⟩
  refine ⟨hmem, update_sheet_skipped dv m acts, ?_⟩
  intro hdc st r
  apply applyLog_no_hit
  intro b hb c hc hq
  have hcol := (hmem b hb c hc).1
  have hq2 : c.col = m.date_column := (Prod.mk.injEq _ _ _ _ ▸ hq).2
  rw [hq2] at hcol
  exact hdc hcol

/-- Witness for C10: one matched record, date column 1, write columns 2
and 3; the date cell `(1, 1)` is untouched by the replayed log. -/
theorem update_sheet_frame_witness :
    ((⟨1, 2, 3, none, none⟩ : SheetMapping).date_column ∉ writeCols ⟨1, 2, 3, none, none⟩) ∧
    applyLog (fun _ => none)
      (update_sheet ["2024-03-15"] ⟨1, 2, 3, none, none⟩
        [⟨"2024-03-15", 5, "8:00", "40:00", "Run"⟩]).2.2 (1, 1) = none := by
  refine ⟨by decide, ?_⟩
  rw [(update_sheet_frame ["2024-03-15"] ⟨1, 2, 3, none, none⟩
    [⟨"2024-03-15", 5, "8:00", "40:00", "Run"⟩]).2.2 (by decide) (fun _ => none) 1]

/-- C6: first match wins. If rows `i < j` of the date column both
normalize to `dd`, then `find_date_row` returns a row index at most
`i`, and no run of `update_sheet` over that column ever writes a cell
of row `j`. -/
theorem find_date_row_first_match_only (dv : List String) (dd vi vj : String) (i j : Nat)
    (hi1 : 1 ≤ i) (hij : i < j)
    (hvi : dv.get? (i - 1) = some vi) (hni : normalize_date vi = some dd)
    (hvj : dv.get? (j - 1) = some vj) (hnj : normalize_date vj = some dd) :
    (∃ r, find_date_row dv dd = some r ∧ r ≤ i) ∧
    (∀ (m : SheetMapping) (acts : List ParsedActivity),
      ∀ batch ∈ (update_sheet dv m acts).2.2, ∀ cell ∈ batch, cell.row ≠ j) := by
  constructor
  · obtain ⟨r, hr, hrle⟩ := findDateRowAux_exists hvi hni 1
    exact ⟨r, hr, by omega⟩
  · intro m acts batch hb cell hcell hjeq
    rw [update_sheet_log] at hb
    obtain ⟨a, ha, hfa⟩ := List.mem_filterMap.1 hb
    cases hfind : find_date_row dv a.date with
    | none =>
      rw [hfind] at hfa
      exact absurd hfa (by simp)
    | some row =>
      rw [hfind] at hfa
      have hbatch : buildCells m row a = batch := by simpa using hfa
      have hrow := (buildCells_mem cell (hbatch ▸ hcell)).1
      have hrj : row = j := by rw [← hrow, hjeq]
      subst hrj
      obtain ⟨h1r, ⟨v, hv, hnv⟩, hmin⟩ := find_date_row_spec hfind
      rw [hvj] at hv
      obtain rfl : vj = v := Option.some.inj hv
      have hadd : a.date = dd := Option.some.inj (hnv.symm.trans hnj)
      have hnid : normalize_date vi = some a.date := by rw [hni, hadd]
      exact hmin (i - 1) (by omega) vi hvi hnid

/-- Witness for C6: rows 1 and 2 both normalize to `2024-03-15`. -/
theorem find_date_row_first_match_only_witness :
    (1 ≤ 1 ∧ 1 < 2 ∧
      (["2024-03-15", "03/15/2024"] : List String).get? 0 = some "2024-03-15" ∧
      normalize_date "2024-03-15" = some "2024-03-15" ∧
      (["2024-03-15", "03/15/2024"] : List String).get? 1 = some "03/15/2024" ∧
      normalize_date "03/15/2024" = some "2024-03-15") ∧
    (∃ r, find_date_row ["2024-03-15", "03/15/2024"] "2024-03-15" = some r ∧ r ≤ 1) :=
  ⟨⟨by decide, by decide, by decide, by decide, by decide, by decide⟩,
   (find_date_row_first_match_only ["2024-03-15", "03/15/2024"] "2024-03-15"
     "2024-03-15" "03/15/2024" 1 2 (by decide) (by decide) (by decide) (by decide)
     (by decide) (by decide)).1⟩

/-- C5 counterexample: the notes column is configured (column 5) but
the record's name is empty, and the batch written for the matched row
contains cells only in columns 2 (distance), 3 (pace) and 4 (duration)
— no name cell, refuting "contains the name cell exactly when
notesColumn is configured". -/
theorem update_sheet_empty_name_counterexample :
    optCol (⟨1, 2, 3, some 4, some 5⟩ : SheetMapping).notes_column = some 5 ∧
    find_date_row ["2024-03-15"] "2024-03-15" = some 1 ∧
    ((update_sheet ["2024-03-15"] (⟨1, 2, 3, some 4, some 5⟩ : SheetMapping)
        [⟨"2024-03-15", 5, "8:00", "40:00", ""⟩]).2.2.flatten.map fun c => (c.row, c.col)) =
      [(1, 2), (1, 3), (1, 4)] := by
  refine ⟨by decide, by decide, ?_⟩
  decide

/-- C5 (amended): the batch for a matched record always contains the
distance and pace cells, contains the duration cell exactly when the
duration column is configured, and contains the name cell exactly when
the notes column is configured AND the record's name is non-empty. -/
theorem update_sheet_batch_composition (dv : List String) (m : SheetMapping)
    (rec : ParsedActivity) (row : Nat)
    (hfind : find_date_row dv rec.date = some row) :
    (update_sheet dv m [rec]).2.2 = [buildCells m row rec] ∧
    (∀ cell ∈ buildCells m row rec, cell.row = row) ∧
    ((buildCells m row rec).map fun c => c.col) =
      [m.distance_column, m.pace_column] ++ (optCol m.duration_column).toList ++
        (if rec.name = "" then [] else (optCol m.notes_column).toList) ∧
    (⟨row, m.distance_column, Value.num rec.distance⟩ : Cell) ∈ buildCells m row rec ∧
    (⟨row, m.pace_column, Value.str rec.pace⟩ : Cell) ∈ buildCells m row rec := by
  refine ⟨by simp [update_sheet, hfind], fun cell hc => (buildCells_mem cell hc).1, ?_, ?_, ?_⟩
  · unfold buildCells
    rcases hdur : optCol m.duration_column with _ | cdur <;>
      rcases hnot : optCol m.notes_column with _ | cnot <;>
      by_cases hn : rec.name = "" <;>
      simp [hdur, hnot, hn]
  · simp [buildCells]
  · simp [buildCells]

/-- Witness for C5's amended claim: notes configured and name
non-empty, duration not configured. -/
theorem update_sheet_batch_composition_witness :
    find_date_row ["2024-03-15"] (⟨"2024-03-15", 5, "8:00", "40:00", "Run"⟩ : ParsedActivity).date = some 1 ∧
    ((buildCells ⟨1, 2, 3, none, some 5⟩ 1 ⟨"2024-03-15", 5, "8:00", "40:00", "Run"⟩).map fun c => c.col) =
      [2, 3, 5] :=
  ⟨by decide,
   ((update_sheet_batch_composition ["2024-03-15"] ⟨1, 2, 3, none, some 5⟩
     ⟨"2024-03-15", 5, "8:00", "40:00", "Run"⟩ 1 (by decide)).2.2.1).trans (by decide)⟩

/-! ## Helper lemmas: pagination -/

lemma fetchLoop_run (pages : Nat → List RawActivity) :
    ∀ (j p : Nat),
      (∀ i, p ≤ i → i < p + j → (pages i).length = pageSize) →
      (pages (p + j)).length < pageSize →
      ∀ (fuel : Nat) (acc : List RawActivity) (reqs : List Nat), j + 1 ≤ fuel →
        fetchLoop pages fuel p acc reqs =
          some (acc ++ ((List.range' p (j + 1)).map pages).flatten,
                reqs ++ List.range' p (j + 1)) := by
  intro j
  induction j with
  | zero =>
    intro p hfull hshort fuel acc reqs hfuel
    obtain ⟨fuel2, rfl⟩ : ∃ f2, fuel = f2 + 1 := ⟨fuel - 1, by omega⟩
    rw [fetchLoop]
    simp only [Nat.add_zero] at hshort
    by_cases hemp : (pages p).isEmpty
    · rw [if_pos hemp]
      have : pages p = [] := List.isEmpty_iff.1 hemp
      simp [List.range', this]
    · rw [if_neg hemp, if_pos hshort]
      simp [List.range']
  | succ j ih =>
    intro p hfull hshort fuel acc reqs hfuel
    obtain ⟨fuel2, rfl⟩ : ∃ f2, fuel = f2 + 1 := ⟨fuel - 1, by omega⟩
    rw [fetchLoop]
    have hp : (pages p).length = pageSize := hfull p (le_refl p) (by omega)
    have hne : ¬(pages p).isEmpty = true := by
      intro hemp
      rw [List.isEmpty_iff.1 hemp] at hp
      simp [pageSize] at hp
    have hnlt : ¬(pages p).length < pageSize := by omega
    rw [if_neg hne, if_neg hnlt]
    have hrec := ih (p + 1)
      (fun i hi1 hi2 => hfull i (by omega) (by omega))
      (by have he : p + 1 + j = p + (j + 1) := by omega
          rw [he]; exact hshort)
      fuel2 (acc ++ pages p) (reqs ++ [p]) (by omega)
    rw [hrec]
    have hr : List.range' p (j + 1 + 1) = p :: List.range' (p + 1) (j + 1) := rfl
    rw [hr]
    simp

/-- C4: pagination termination and count. If the first `k` pages each
hold exactly `pageSize` (50) items and page `k + 1` is shorter, then
the loop of `fetch_activities` issues exactly the page requests
`1, …, k + 1` starting at page 1 (none after the short page) and
accumulates exactly `k * 50` plus the short page's length raw
activities before the type filter is applied. -/
theorem fetch_activities_pagination (pages : Nat → List RawActivity) (k fuel : Nat)
    (hfull : ∀ i, 1 ≤ i → i ≤ k → (pages i).length = pageSize)
    (hshort : (pages (k + 1)).length < pageSize)
    (hfuel : k + 1 ≤ fuel) :
    (∃ acc, fetchLoop pages fuel 1 [] [] = some (acc, List.range' 1 (k + 1)) ∧
        acc.length = k * pageSize + (pages (k + 1)).length) ∧
    (∀ t, ∃ res, fetch_activities pages fuel t = some res ∧
        res.2 = List.range' 1 (k + 1)) := by
  have hrun := fetchLoop_run pages k 1
    (fun i hi1 hi2 => hfull i hi1 (by omega))
    (by have he : (1 : Nat) + k = k + 1 := by omega
        rw [he]; exact hshort)
    fuel [] [] hfuel
  have hsplit : List.range' 1 (k + 1) = List.range' 1 k ++ [1 + k] := by
    have := @List.range'_concat 1 1 k
    simpa using this
  have h1 : (((List.range' 1 k).map pages).flatten).length = k * pageSize := by
    rw [List.length_flatten, List.map_map]
    have hmap : (List.range' 1 k).map (List.length ∘ pages) = List.replicate k pageSize := by
      calc (List.range' 1 k).map (List.length ∘ pages)
          = (List.range' 1 k).map (fun _ => pageSize) :=
            List.map_congr_left fun i hi => by
              rw [List.mem_range'_1] at hi
              exact hfull i (by omega) (by omega)
        _ = List.replicate (List.range' 1 k).length pageSize := List.map_const' _ _
        _ = List.replicate k pageSize := by rw [List.length_range']
    rw [hmap, List.sum_replicate, smul_eq_mul]
  have hlen : (((List.range' 1 (k + 1)).map pages).flatten).length =
      k * pageSize + (pages (k + 1)).length := by
    rw [hsplit, List.map_append, List.flatten_append, List.length_append, h1]
    simp [Nat.add_comm 1 k]
  constructor
  · exact ⟨((List.range' 1 (k + 1)).map pages).flatten, by simpa using hrun, hlen⟩
  · intro t
    refine ⟨(if t ≠ "" then
        (((List.range' 1 (k + 1)).map pages).flatten).filter (fun a => a.type == some t)
      else ((List.range' 1 (k + 1)).map pages).flatten, List.range' 1 (k + 1)), ?_, rfl⟩
    rw [fetch_activities, hrun]
    simp

/-- The page oracle for C4's witness: page 1 full (50 items), page 2
with a single item, every later page empty. -/
def pagesW : Nat → List RawActivity := fun p =>
  if p = 1 then List.replicate 50 ⟨0, 0, none, none, "", none⟩
  else if p = 2 then [⟨0, 0, none, none, "", none⟩] else []

/-- Witness for C4 at `k = 1`: pages of sizes 50 and 1. -/
theorem fetch_activities_pagination_witness :
    ((∀ i, 1 ≤ i → i ≤ 1 → (pagesW i).length = pageSize) ∧
      (pagesW 2).length < pageSize ∧ 1 + 1 ≤ 3) ∧
    (∃ acc, fetchLoop pagesW 3 1 [] [] = some (acc, List.range' 1 2) ∧
        acc.length = 1 * pageSize + (pagesW 2).length) := by
  have hfull : ∀ i, 1 ≤ i → i ≤ 1 → (pagesW i).length = pageSize := by
    intro i h1 h2
    have hi : i = 1 := by omega
    subst hi
    rfl
  have hshort : (pagesW 2).length < pageSize := by norm_num [pagesW, pageSize]
  exact ⟨⟨hfull, hshort, by norm_num⟩,
    (fetch_activities_pagination pagesW 1 3 hfull hshort (by norm_num)).1⟩

/-! ## Helper lemmas: Python numeric primitives -/

lemma pyInt_eq_floor {q : ℚ} (h : 0 ≤ q) : pyInt q = ⌊q⌋ := by
  rw [Rat.floor_def]
  exact Int.tdiv_eq_ediv (Rat.num_nonneg.2 h) (by positivity)

lemma pyInt_intCast (n : Int) : pyInt (n : ℚ) = n := by
  unfold pyInt
  rw [Rat.num_intCast, Rat.den_intCast]
  simp [Int.tdiv_one]

lemma pyMod_nonneg (x : ℚ) {y : ℚ} (hy : 0 < y) : 0 ≤ pyMod x y := by
  unfold pyMod
  have h1 : ((⌊x / y⌋ : ℚ)) ≤ x / y := Int.floor_le (x / y)
  have h2 : ((⌊x / y⌋ : ℚ)) * y ≤ (x / y) * y := mul_le_mul_of_nonneg_right h1 hy.le
  rw [div_mul_cancel₀ x hy.ne'] at h2
  linarith

lemma pyMod_lt (x : ℚ) {y : ℚ} (hy : 0 < y) : pyMod x y < y := by
  unfold pyMod
  have h1 : x / y < (⌊x / y⌋ : ℚ) + 1 := Int.lt_floor_add_one (x / y)
  have h2 : (x / y) * y < ((⌊x / y⌋ : ℚ) + 1) * y := by
    exact mul_lt_mul_of_pos_right h1 hy
  rw [div_mul_cancel₀ x hy.ne'] at h2
  nlinarith

/-- C7: pace label bounds and the zero-distance guard. For a distance
`d ≥ 0` and moving time `t > 0`: at `d = 0` the label is `"N/A"`
(the division is never performed); at `d > 0` the label is the minutes
and zero-padded seconds, with the seconds component in `[0, 59]` and a
non-negative minutes component. The pace field `parse_activity`
returns is exactly this label. -/
theorem paceStr_bounds (d : ℚ) (t : Int) (hd : 0 ≤ d) (ht : 0 < t) :
    (d = 0 → paceStr d t = "N/A") ∧
    (0 < d →
      paceStr d t = numStr (paceMinutes d t) ++ ":" ++ pyFmt02 (paceSeconds d t) ∧
      0 ≤ paceSeconds d t ∧ paceSeconds d t ≤ 59 ∧ 0 ≤ paceMinutes d t) ∧
    (∀ (a : RawActivity) (u : String) (rec : ParsedActivity),
      parse_activity a u = some rec →
      rec.pace = paceStr (distanceVal u a.distance).1 a.moving_time) := by
  refine ⟨?_, ?_, ?_⟩
  · intro h0
    subst h0
    rw [paceStr, if_neg (lt_irrefl 0)]
  · intro hdp
    have hpt : 0 ≤ paceTotal d t := by
      unfold paceTotal
      have : (0 : ℚ) ≤ (t : ℚ) := by exact_mod_cast ht.le
      positivity
    have hm0 : 0 ≤ pyMod (paceTotal d t) 60 := pyMod_nonneg _ (by norm_num)
    have hmlt : pyMod (paceTotal d t) 60 < 60 := pyMod_lt _ (by norm_num)
    have hsec : paceSeconds d t = ⌊pyMod (paceTotal d t) 60⌋ := by
      unfold paceSeconds
      exact pyInt_eq_floor hm0
    have hmin : paceMinutes d t = ⌊paceTotal d t / 60⌋ := by
      unfold paceMinutes pyFloorDiv
      exact pyInt_intCast _
    refine ⟨by rw [paceStr, if_pos hdp], ?_, ?_, ?_⟩
    · rw [hsec]
      exact Int.floor_nonneg.2 hm0
    · rw [hsec]
      have : ⌊pyMod (paceTotal d t) 60⌋ < 60 := by
        rw [Int.floor_lt]
        exact_mod_cast hmlt
      omega
    · rw [hmin]
      apply Int.floor_nonneg.2
      positivity
  · intro a u rec h
    unfold parse_activity at h
    simp only [] at h
    cases hiso : isoDateOf (pyReplaceZ (a.start_date_local.getD a.start_date)).toList with
    | none =>
      rw [hiso] at h
      exact absurd h (by simp)
    | some p =>
      obtain ⟨y, mo, dy⟩ := p
      rw [hiso] at h
      have h2 := Option.some.inj h
      rw [← h2]

/-- Witness for C7 at `d = 2`, `t = 300` (pace `2:30`). -/
theorem paceStr_bounds_witness :
    ((0 : ℚ) ≤ 2 ∧ (0 : Int) < 300 ∧ (0 : ℚ) < 2) ∧
    (paceStr 2 300 = numStr (paceMinutes 2 300) ++ ":" ++ pyFmt02 (paceSeconds 2 300) ∧
      0 ≤ paceSeconds 2 300 ∧ paceSeconds 2 300 ≤ 59 ∧ 0 ≤ paceMinutes 2 300) :=
  ⟨⟨by norm_num, by norm_num, by norm_num⟩,
   (paceStr_bounds 2 300 (by norm_num) (by norm_num)).2.1 (by norm_num)⟩

/-! ## The end-to-end example activity -/

/-- The raw activity of the end-to-end example: 10000 m, 3000 s,
type `Run`, local start `2024-03-15T07:00:00Z`, name `Morning Run`. -/
def sampleRun : RawActivity :=
  ⟨10000, 3000, some "Run", some "2024-03-15T07:00:00Z", "2024-03-15T07:00:00Z",
   some "Morning Run"⟩

lemma paceStr_example : paceStr (10000 / 1609.344 : ℚ) 3000 = "8:02" := by
  have hd : (0 : ℚ) < 10000 / 1609.344 := by norm_num
  have hpt : paceTotal (10000 / 1609.344 : ℚ) 3000 = 301752 / 625 := by
    unfold paceTotal
    push_cast
    norm_num
  have hfl : ⌊(301752 / 625 : ℚ) / 60⌋ = 8 := by
    rw [Int.floor_eq_iff]
    norm_num
  have hmin : paceMinutes (10000 / 1609.344 : ℚ) 3000 = 8 := by
    unfold paceMinutes pyFloorDiv
    rw [hpt, hfl]
    exact pyInt_intCast 8
  have hsec : paceSeconds (10000 / 1609.344 : ℚ) 3000 = 2 := by
    unfold paceSeconds pyMod
    rw [hpt, hfl]
    have he : (301752 / 625 : ℚ) - 60 * ((8 : ℤ) : ℚ) = 1752 / 625 := by
      push_cast
      norm_num
    rw [he, pyInt_eq_floor (by norm_num), Int.floor_eq_iff]
    norm_num
  unfold paceStr
  rw [if_pos hd, hmin, hsec]
  decide

/-- C2 counterexample: on the example activity with units = miles the
code computes the pace from the unrounded distance
(`3000 / (10000/1609.344) ≈ 482.80 s/mi`), yielding `paceLabel "8:02"`,
not the claimed `"8:03"` (which would follow from dividing by the
2-decimal-rounded `distanceValue` 6.21). -/
theorem parse_activity_example_pace_counterexample :
    (parse_activity sampleRun "miles").map (fun rec => rec.pace) = some "8:02" ∧
    ("8:02" : String) ≠ "8:03" := by
  refine ⟨?_, by decide⟩
  unfold parse_activity
  simp only [show isoDateOf
      (pyReplaceZ (sampleRun.start_date_local.getD sampleRun.start_date)).toList =
      some (2024, 3, 15) from by decide, Option.map_some']
  rw [show (distanceVal "miles" sampleRun.distance).1 = (10000 / 1609.344 : ℚ) from rfl]
  rw [show sampleRun.moving_time = (3000 : Int) from rfl, paceStr_example]

/-- C2 (amended): `parse_activity` on the example raw activity with
units = miles yields `date "2024-03-15"`, `distanceValue 6.21`,
`paceLabel "8:02"` (moving-time seconds divided by the unrounded
distance in miles, truncated to minutes and seconds), and
`durationLabel "50:00"`. -/
theorem parse_activity_morning_run :
    parse_activity sampleRun "miles" =
      some ⟨"2024-03-15", 621 / 100, "8:02", "50:00", "Morning Run"⟩ := by
  have hround : round2 (10000 / 1609.344 : ℚ) = 621 / 100 := by
    unfold round2 roundHalfEven
    have hx : (10000 / 1609.344 : ℚ) * 100 = 7812500 / 12573 := by norm_num
    rw [hx]
    have hfl : ⌊(7812500 / 12573 : ℚ)⌋ = 621 := by
      rw [Int.floor_eq_iff]
      norm_num
    rw [hfl]
    rw [if_pos (by push_cast; norm_num :
      (7812500 / 12573 : ℚ) - ((621 : ℤ) : ℚ) < 1 / 2)]
    norm_num
  have hdur : durationStr 3000 = "50:00" := by decide
  unfold parse_activity
  simp only [show isoDateOf
      (pyReplaceZ (sampleRun.start_date_local.getD sampleRun.start_date)).toList =
      some (2024, 3, 15) from by decide]
  rw [show (distanceVal "miles" sampleRun.distance).1 = (10000 / 1609.344 : ℚ) from rfl]
  rw [show sampleRun.moving_time = (3000 : Int) from rfl]
  rw [hround, paceStr_example, hdur]
  rfl

/-! ## Helper lemmas: the stable sort on the date key -/

lemma lexLe_refl (l : List Char) : lexLe l l = true := by
  induction l with
  | nil => rfl
  | cons a as ih => simp [lexLe, ih]

lemma lexLe_total (a b : List Char) : lexLe a b = true ∨ lexLe b a = true := by
  induction a generalizing b with
  | nil => exact Or.inl rfl
  | cons x xs ih =>
    cases b with
    | nil => exact Or.inr rfl
    | cons y ys =>
      rcases Nat.lt_trichotomy x.toNat y.toNat with h | h | h
      · exact Or.inl (by simp [lexLe, h])
      · rcases ih ys with h2 | h2
        · exact Or.inl (by simp [lexLe, h, h2])
        · exact Or.inr (by simp [lexLe, h, h2])
      · exact Or.inr (by simp [lexLe, h])

lemma lexLe_trans {a b c : List Char} (h1 : lexLe a b = true) (h2 : lexLe b c = true) :
    lexLe a c = true := by
  induction a generalizing b c with
  | nil => rfl
  | cons x xs ih =>
    cases b with
    | nil => exact absurd h1 (by simp [lexLe])
    | cons y ys =>
      cases c with
      | nil => exact absurd h2 (by simp [lexLe])
      | cons z zs =>
        simp only [lexLe] at h1 h2 ⊢
        split_ifs at h1 h2 ⊢ <;>
          first
          | rfl
          | omega
          | (exact ih h1 h2)

lemma dateLe_of_eq {a b : ParsedActivity} (h : a.date = b.date) : dateLe a b = true := by
  unfold dateLe
  rw [h]
  exact lexLe_refl _

lemma dateLe_total (a b : ParsedActivity) : dateLe a b = true ∨ dateLe b a = true :=
  lexLe_total _ _

lemma dateLe_trans {a b c : ParsedActivity} (h1 : dateLe a b = true) (h2 : dateLe b c = true) :
    dateLe a c = true := lexLe_trans h1 h2

lemma mem_sortInsert (a x : ParsedActivity) (l : List ParsedActivity) :
    x ∈ sortInsert a l ↔ x = a ∨ x ∈ l := by
  induction l with
  | nil => simp [sortInsert]
  | cons b bs ih =>
    rw [sortInsert]
    by_cases hab : dateLe a b = true
    · rw [if_pos hab]
      simp [or_comm, or_left_comm]
    · rw [if_neg hab]
      simp [ih]
      tauto

lemma sorted_sortInsert {a : ParsedActivity} {l : List ParsedActivity}
    (hl : List.Sorted (fun x y => dateLe x y = true) l) :
    List.Sorted (fun x y => dateLe x y = true) (sortInsert a l) := by
  induction l with
  | nil => simp [sortInsert]
  | cons b bs ih =>
    rw [List.sorted_cons] at hl
    obtain ⟨hb, hbs⟩ := hl
    rw [sortInsert]
    by_cases hab : dateLe a b = true
    · rw [if_pos hab, List.sorted_cons]
      refine ⟨?_, List.sorted_cons.2 ⟨hb, hbs⟩⟩
      intro x hx
      rcases List.mem_cons.1 hx with rfl | hx
      · exact hab
      · exact dateLe_trans hab (hb x hx)
    · rw [if_neg hab, List.sorted_cons]
      refine ⟨?_, ih hbs⟩
      intro x hx
      rcases (mem_sortInsert a x bs).1 hx with rfl | hx
      · rcases dateLe_total b x with h | h
        · exact h
        · exact absurd h hab
      · exact hb x hx

lemma pySortByDate_sorted (l : List ParsedActivity) :
    List.Sorted (fun x y => dateLe x y = true) (pySortByDate l) := by
  induction l with
  | nil => simp [pySortByDate]
  | cons a as ih => exact sorted_sortInsert ih

lemma sortInsert_perm (a : ParsedActivity) (l : List ParsedActivity) :
    (sortInsert a l).Perm (a :: l) := by
  induction l with
  | nil => rfl
  | cons b bs ih =>
    rw [sortInsert]
    by_cases hab : dateLe a b = true
    · rw [if_pos hab]
    · rw [if_neg hab]
      exact (ih.cons b).trans (List.Perm.swap a b bs)

lemma pySortByDate_perm (l : List ParsedActivity) : (pySortByDate l).Perm l := by
  induction l with
  | nil => rfl
  | cons a as ih => exact (sortInsert_perm a (pySortByDate as)).trans (ih.cons a)

lemma filter_sortInsert_pos {a : ParsedActivity} {dd : String} (l : List ParsedActivity)
    (ha : a.date = dd) :
    (sortInsert a l).filter (fun x => x.date == dd) =
      a :: l.filter (fun x => x.date == dd) := by
  induction l with
  | nil => simp [sortInsert, List.filter_cons, ha]
  | cons b bs ih =>
    rw [sortInsert]
    by_cases hab : dateLe a b = true
    · rw [if_pos hab, List.filter_cons, List.filter_cons]
      simp [ha]
    · rw [if_neg hab]
      have hbd : b.date ≠ dd := by
        intro hbdd
        exact hab (dateLe_of_eq (by rw [ha, hbdd]))
      rw [List.filter_cons, List.filter_cons]
      simp [hbd, ih]

lemma filter_sortInsert_neg {a : ParsedActivity} {dd : String} (l : List ParsedActivity)
    (ha : a.date ≠ dd) :
    (sortInsert a l).filter (fun x => x.date == dd) =
      l.filter (fun x => x.date == dd) := by
  induction l with
  | nil => simp [sortInsert, List.filter_cons, ha]
  | cons b bs ih =>
    rw [sortInsert]
    by_cases hab : dateLe a b = true
    · rw [if_pos hab, List.filter_cons, List.filter_cons]
      simp [ha]
    · rw [if_neg hab, List.filter_cons, List.filter_cons]
      by_cases hbd : b.date = dd <;> simp [hbd, ih]

lemma pySortByDate_filter (l : List ParsedActivity) (dd : String) :
    (pySortByDate l).filter (fun x => x.date == dd) =
      l.filter (fun x => x.date == dd) := by
  induction l with
  | nil => rfl
  | cons a as ih =>
    rw [pySortByDate]
    by_cases ha : a.date = dd
    · rw [filter_sortInsert_pos _ ha, ih, List.filter_cons]
      simp [ha]
    · rw [filter_sortInsert_neg _ ha, ih, List.filter_cons]
      simp [ha]

/-! ## Helper lemmas: replaying a run hits the last same-date record -/

lemma update_sheet_cons_miss {dv : List String} {m : SheetMapping} {a : ParsedActivity}
    {rest : List ParsedActivity} (h : find_date_row dv a.date = none) :
    (update_sheet dv m (a :: rest)).2.2 = (update_sheet dv m rest).2.2 := by
  simp [update_sheet, h]

lemma update_sheet_cons_hit {dv : List String} {m : SheetMapping} {a : ParsedActivity}
    {rest : List ParsedActivity} {row : Nat} (h : find_date_row dv a.date = some row) :
    (update_sheet dv m (a :: rest)).2.2 =
      buildCells m row a :: (update_sheet dv m rest).2.2 := by
  simp [update_sheet, h]

lemma applyLog_cons (st : Nat × Nat → Option Value) (b : List Cell)
    (log : List (List Cell)) (q : Nat × Nat) :
    applyLog st (b :: log) q = applyLog (applyBatch st b) log q := rfl

lemma buildCells_tail_no_hit {m : SheetMapping} {row r : Nat} {a : ParsedActivity}
    {col : Nat}
    (hdur : ∀ c, optCol m.duration_column = some c → c ≠ col)
    (hnot : ∀ c, optCol m.notes_column = some c → c ≠ col) :
    ∀ c ∈ ((match optCol m.duration_column with
            | some cc => [(⟨row, cc, Value.str a.duration⟩ : Cell)]
            | none => ([] : List Cell)) ++
           (match optCol m.notes_column with
            | some cc =>
              if a.name ≠ "" then [(⟨row, cc, Value.str a.name⟩ : Cell)] else []
            | none => ([] : List Cell))),
      (c.row, c.col) ≠ (r, col) := by
  intro c hc hq
  have hcol : c.col = col := (Prod.mk.injEq _ _ _ _ ▸ hq).2
  rcases List.mem_append.1 hc with h | h
  · rcases hdopt : optCol m.duration_column with _ | cc
    · rw [hdopt] at h
      exact absurd h (by simp)
    · rw [hdopt] at h
      have h2 : c ∈ [(⟨row, cc, Value.str a.duration⟩ : Cell)] := h
      rcases List.mem_singleton.1 h2 with rfl
      exact hdur cc hdopt hcol
  · rcases hnopt : optCol m.notes_column with _ | cc
    · rw [hnopt] at h
      exact absurd h (by simp)
    · rw [hnopt] at h
      have h2 : c ∈ (if a.name ≠ "" then [(⟨row, cc, Value.str a.name⟩ : Cell)] else []) := h
      by_cases hn : a.name ≠ ""
      · rw [if_pos hn] at h2
        rcases List.mem_singleton.1 h2 with rfl
        exact hnot cc hnopt hcol
      · rw [if_neg hn] at h2
        exact absurd h2 (by simp)

lemma applyBatch_buildCells_distance {m : SheetMapping} {row : Nat} {a : ParsedActivity}
    (st : Nat × Nat → Option Value)
    (hpd : m.pace_column ≠ m.distance_column)
    (hdur : ∀ c, optCol m.duration_column = some c → c ≠ m.distance_column)
    (hnot : ∀ c, optCol m.notes_column = some c → c ≠ m.distance_column) :
    applyBatch st (buildCells m row a) (row, m.distance_column) =
      some (Value.num a.distance) := by
  unfold buildCells
  simp only [List.cons_append, List.nil_append]
  rw [show applyBatch st
      ((⟨row, m.distance_column, Value.num a.distance⟩ : Cell) ::
        (⟨row, m.pace_column, Value.str a.pace⟩ : Cell) :: _)
      (row, m.distance_column) =
    applyBatch
      (writeCell (writeCell st ⟨row, m.distance_column, Value.num a.distance⟩)
        ⟨row, m.pace_column, Value.str a.pace⟩) _ (row, m.distance_column) from rfl]
  rw [applyBatch_no_hit (buildCells_tail_no_hit hdur hnot)]
  rw [writeCell, if_neg (fun h => hpd ((Prod.mk.injEq _ _ _ _ ▸ h).2).symm)]
  rw [writeCell, if_pos rfl]

lemma applyBatch_buildCells_pace {m : SheetMapping} {row : Nat} {a : ParsedActivity}
    (st : Nat × Nat → Option Value)
    (hdur : ∀ c, optCol m.duration_column = some c → c ≠ m.pace_column)
    (hnot : ∀ c, optCol m.notes_column = some c → c ≠ m.pace_column) :
    applyBatch st (buildCells m row a) (row, m.pace_column) =
      some (Value.str a.pace) := by
  unfold buildCells
  simp only [List.cons_append, List.nil_append]
  rw [show applyBatch st
      ((⟨row, m.distance_column, Value.num a.distance⟩ : Cell) ::
        (⟨row, m.pace_column, Value.str a.pace⟩ : Cell) :: _)
      (row, m.pace_column) =
    applyBatch
      (writeCell (writeCell st ⟨row, m.distance_column, Value.num a.distance⟩)
        ⟨row, m.pace_column, Value.str a.pace⟩) _ (row, m.pace_column) from rfl]
  rw [applyBatch_no_hit (buildCells_tail_no_hit hdur hnot)]
  rw [writeCell, if_pos rfl]

lemma applyBatch_buildCells_other_row {m : SheetMapping} {row r : Nat} {a : ParsedActivity}
    (st : Nat × Nat → Option Value) (col : Nat) (hne : row ≠ r) :
    applyBatch st (buildCells m row a) (r, col) = st (r, col) := by
  apply applyBatch_no_hit
  intro c hc hq
  have hr := (buildCells_mem c hc).1
  have : c.row = r := (Prod.mk.injEq _ _ _ _ ▸ hq).1
  exact hne (by rw [← hr, this])

lemma applyLog_last {dv : List String} {m : SheetMapping} {dd : String} {r : Nat}
    (hfind : find_date_row dv dd = some r)
    (hpd : m.pace_column ≠ m.distance_column)
    (hdur : ∀ c, optCol m.duration_column = some c →
      c ≠ m.distance_column ∧ c ≠ m.pace_column)
    (hnot : ∀ c, optCol m.notes_column = some c →
      c ≠ m.distance_column ∧ c ≠ m.pace_column) :
    ∀ (acts : List ParsedActivity) (st : Nat × Nat → Option Value),
      (acts.filter (fun x => x.date == dd) = [] →
        applyLog st (update_sheet dv m acts).2.2 (r, m.distance_column) =
          st (r, m.distance_column) ∧
        applyLog st (update_sheet dv m acts).2.2 (r, m.pace_column) =
          st (r, m.pace_column)) ∧
      (∀ lrec, (acts.filter (fun x => x.date == dd)).getLast? = some lrec →
        applyLog st (update_sheet dv m acts).2.2 (r, m.distance_column) =
          some (Value.num lrec.distance) ∧
        applyLog st (update_sheet dv m acts).2.2 (r, m.pace_column) =
          some (Value.str lrec.pace)) := by
  intro acts
  induction acts with
  | nil =>
    intro st
    refine ⟨fun _ => ⟨rfl, rfl⟩, fun lrec h => absurd h (by simp)⟩
  | cons a rest ih =>
    intro st
    by_cases had : a.date = dd
    · have hfa : find_date_row dv a.date = some r := by rw [had]; exact hfind
      rw [update_sheet_cons_hit hfa]
      have hfe : (a :: rest).filter (fun x => x.date == dd) =
          a :: rest.filter (fun x => x.date == dd) := by
        simp [List.filter_cons, had]
      have hd1 : applyBatch st (buildCells m r a) (r, m.distance_column) =
          some (Value.num a.distance) :=
        applyBatch_buildCells_distance st hpd (fun c hc => (hdur c hc).1)
          (fun c hc => (hnot c hc).1)
      have hp1 : applyBatch st (buildCells m r a) (r, m.pace_column) =
          some (Value.str a.pace) :=
        applyBatch_buildCells_pace st (fun c hc => (hdur c hc).2)
          (fun c hc => (hnot c hc).2)
      constructor
      · intro hemp
        rw [hfe] at hemp
        exact absurd hemp (by simp)
      · intro lrec hlast
        rw [hfe] at hlast
        simp only [applyLog_cons]
        rcases hrf : rest.filter (fun x => x.date == dd) with _ | ⟨b, bs⟩
        · rw [hrf] at hlast
          have hla : lrec = a := by
            have := Option.some.inj hlast
            exact this.symm
          subst hla
          obtain ⟨e1, e2⟩ := (ih (applyBatch st (buildCells m r lrec))).1 hrf
          rw [e1, e2, hd1, hp1]
          exact ⟨rfl, rfl⟩
        · have hlast2 : (rest.filter (fun x => x.date == dd)).getLast? = some lrec := by
            rw [hrf]
            rw [hrf] at hlast
            rw [List.getLast?_cons_cons] at hlast
            exact hlast
          exact (ih (applyBatch st (buildCells m r a))).2 lrec hlast2
    · have hfe : (a :: rest).filter (fun x => x.date == dd) =
          rest.filter (fun x => x.date == dd) := by
        simp [List.filter_cons, had]
      cases hfa : find_date_row dv a.date with
      | none =>
        rw [update_sheet_cons_miss hfa]
        constructor
        · intro hemp
          rw [hfe] at hemp
          exact (ih st).1 hemp
        · intro lrec hlast
          rw [hfe] at hlast
          exact (ih st).2 lrec hlast
      | some row =>
        have hrow : row ≠ r := by
          intro hrr
          subst hrr
          exact had (find_date_row_inj hfa hfind)
        rw [update_sheet_cons_hit hfa]
        simp only [applyLog_cons]
        have hbd : applyBatch st (buildCells m row a) (r, m.distance_column) =
            st (r, m.distance_column) :=
          applyBatch_buildCells_other_row st _ hrow
        have hbp : applyBatch st (buildCells m row a) (r, m.pace_column) =
            st (r, m.pace_column) :=
          applyBatch_buildCells_other_row st _ hrow
        constructor
        · intro hemp
          rw [hfe] at hemp
          obtain ⟨e1, e2⟩ := (ih (applyBatch st (buildCells m row a))).1 hemp
          rw [e1, e2, hbd, hbp]
          exact ⟨rfl, rfl⟩
        · intro lrec hlast
          rw [hfe] at hlast
          exact (ih (applyBatch st (buildCells m row a))).2 lrec hlast

/-- C8: latest same-day activity wins. `main` sorts the parsed records
ascending by date with a stable sort before reconciliation, so the
sorted list is a sorted permutation of the input whose same-date
subsequences keep their input order; each record's batch targets the
row found for its date; and for records sharing date `dd` matched to
row `r`, replaying the whole run leaves in the distance and pace cells
of row `r` exactly the values of the last `dd`-record in processing
order (the configured write columns are assumed pairwise distinct). -/
theorem sorted_latest_same_day_wins (dv : List String) (m : SheetMapping)
    (recs : List ParsedActivity) (dd : String) (r : Nat)
    (hfind : find_date_row dv dd = some r)
    (hpd : m.pace_column ≠ m.distance_column)
    (hdur : ∀ c, optCol m.duration_column = some c →
      c ≠ m.distance_column ∧ c ≠ m.pace_column)
    (hnot : ∀ c, optCol m.notes_column = some c →
      c ≠ m.distance_column ∧ c ≠ m.pace_column) :
    List.Sorted (fun x y => dateLe x y = true) (pySortByDate recs) ∧
    (pySortByDate recs).Perm recs ∧
    (pySortByDate recs).filter (fun x => x.date == dd) =
      recs.filter (fun x => x.date == dd) ∧
    (update_sheet dv m (pySortByDate recs)).2.2 =
      (pySortByDate recs).filterMap
        (fun a => (find_date_row dv a.date).map fun row => buildCells m row a) ∧
    (∀ lrec, (recs.filter (fun x => x.date == dd)).getLast? = some lrec →
      ∀ st : Nat × Nat → Option Value,
        applyLog st (update_sheet dv m (pySortByDate recs)).2.2 (r, m.distance_column) =
          some (Value.num lrec.distance) ∧
        applyLog st (update_sheet dv m (pySortByDate recs)).2.2 (r, m.pace_column) =
          some (Value.str lrec.pace)) := by
  refine ⟨pySortByDate_sorted recs, pySortByDate_perm recs, pySortByDate_filter recs dd,
    update_sheet_log dv m (pySortByDate recs), ?_⟩
  intro lrec hlast st
  have hlast2 : ((pySortByDate recs).filter (fun x => x.date == dd)).getLast? = some lrec := by
    rw [pySortByDate_filter recs dd]
    exact hlast
  exact (applyLog_last hfind hpd hdur hnot (pySortByDate recs) st).2 lrec hlast2

/-- Witness for C8: two records on the same date; the second one's
distance and pace survive in row 1. -/
theorem sorted_latest_same_day_wins_witness :
    (find_date_row ["2024-03-15"] "2024-03-15" = some 1 ∧
      (⟨1, 2, 3, none, none⟩ : SheetMapping).pace_column ≠
        (⟨1, 2, 3, none, none⟩ : SheetMapping).distance_column) ∧
    (applyLog (fun _ => none)
        (update_sheet ["2024-03-15"] ⟨1, 2, 3, none, none⟩
          (pySortByDate
            [⟨"2024-03-15", 5, "8:00", "50:00", "a"⟩,
             ⟨"2024-03-15", 7, "7:00", "45:00", "b"⟩])).2.2
        (1, (⟨1, 2, 3, none, none⟩ : SheetMapping).distance_column) =
      some (Value.num
        (⟨"2024-03-15", 7, "7:00", "45:00", "b"⟩ : ParsedActivity).distance) ∧
     applyLog (fun _ => none)
        (update_sheet ["2024-03-15"] ⟨1, 2, 3, none, none⟩
          (pySortByDate
            [⟨"2024-03-15", 5, "8:00", "50:00", "a"⟩,
             ⟨"2024-03-15", 7, "7:00", "45:00", "b"⟩])).2.2
        (1, (⟨1, 2, 3, none, none⟩ : SheetMapping).pace_column) =
      some (Value.str
        (⟨"2024-03-15", 7, "7:00", "45:00", "b"⟩ : ParsedActivity).pace)) := by
  have hlast : (([⟨"2024-03-15", 5, "8:00", "50:00", "a"⟩,
      ⟨"2024-03-15", 7, "7:00", "45:00", "b"⟩] : List ParsedActivity).filter
        (fun x => x.date == "2024-03-15")).getLast? =
      some ⟨"2024-03-15", 7, "7:00", "45:00", "b"⟩ := rfl
  refine ⟨⟨by decide, by decide⟩, ?_⟩
  exact (sorted_latest_same_day_wins ["2024-03-15"] ⟨1, 2, 3, none, none⟩
    [⟨"2024-03-15", 5, "8:00", "50:00", "a"⟩, ⟨"2024-03-15", 7, "7:00", "45:00", "b"⟩]
    "2024-03-15" 1 (by decide) (by decide)
    (fun c hc => absurd hc (by simp [optCol]))
    (fun c hc => absurd hc (by simp [optCol]))).2.2.2.2
    ⟨"2024-03-15", 7, "7:00", "45:00", "b"⟩ hlast (fun _ => none)
